import Mathlib

/-!
Verification of the commercial-agriculture GEP pipeline (`src/gep_agr.py`,
with `src/estimate_commerical_agriculture.py` as a near-duplicate variant).

The pandas pipeline is embedded shallowly:

* a DataFrame is a `List` of records;
* a possibly-missing cell (`NaN` / `pd.NA`) is an `Option`;
* decimal values are `ℚ`;
* `DataFrame.sort_values` is `List.insertionSort` on the corresponding key
  relation (pandas leaves the relative order of tied keys unspecified; the
  stable order is one admissible refinement, and no theorem below depends
  on the order of tied rows);
* `groupby(sort=True)` enumerates the distinct keys in ascending order
  (`dedup` then `insertionSort`), each group being the order-preserving
  `filter` of the frame by its key, exactly as pandas does;
* `pd.merge_asof(..., direction="backward")` on sorted inputs picks, for each
  left row, the last right row whose key is `≤` the left key;
* a pipeline step that raises is a function into `Option`, `none` being the
  raised exception.
-/

/-- One long-format row of the value table after `read_crop_values`
(`gep_agr.py`, returned at line 105): the melted FAO production-value
observation.  `gep` is `Option ℚ` because the source year cells may be
missing (`NaN`). -/
structure ValueRecord where
  area_code : Int
  country : String
  crop_code : Int
  crop : String
  year : Int
  gep : Option ℚ
deriving DecidableEq, Repr

/-- One row of the coefficient lookup produced by `read_crop_coefs`
(`gep_agr.py` lines 108-141): columns `[FAO, year, rental_rate]`, where
`year` is the decade start extracted from the decade label.  The
`rental_rate` cell itself may be missing in the source, hence `Option ℚ`. -/
structure RateRow where
  fao : Int
  year : Int
  rental_rate : Option ℚ
deriving DecidableEq, Repr

/-- One row of the merged frame produced by `merge_crop_with_coefs`
(`gep_agr.py` lines 144-177).  The source overwrites the `gep` column with
`gep * rental_rate`, so `gep` here is the adjusted value. -/
structure AdjRecord where
  area_code : Int
  country : String
  crop_code : Int
  crop : String
  year : Int
  gep : Option ℚ
  rental_rate : Option ℚ
deriving DecidableEq, Repr

/-- One row of the country-year table produced by `group_crops`
(`gep_agr.py` lines 180-188).  `gep` is a plain `ℚ`: pandas `sum` skips
missing values and returns `0` for an all-missing group. -/
structure CYRow where
  area_code : Int
  country : String
  year : Int
  gep : ℚ
deriving DecidableEq, Repr

/-- One row of the global table produced by `group_countries`
(`gep_agr.py` lines 191-200). -/
structure GYRow where
  year : Int
  total_gep : ℚ
deriving DecidableEq, Repr

/-- One raw wide row of the FAO value CSV, after the renaming of
`gep_agr.py` lines 34-38 (the renaming itself is a pure relabelling and is
absorbed into the field names).  `area_code` is kept as the raw string cell
because the source coerces it to an integer only at line 100.  `gep y` is
the cell of year column `y` (pandas rows are rectangular over the year
columns, so a per-year lookup function is an exact model). -/
structure WideRow where
  unit : String
  element_code : Int
  area_code : String
  country : String
  crop_code : Int
  crop : String
  gep : Int → Option ℚ

/-- One raw row of the semicolon-delimited coefficient CSV
(`gep_agr.py` line 115): identifier columns `Order`, `FAO`,
`Country/territory` plus one rate cell per decade column, listed in the
CSV's column order.  `FAO` may be a missing cell (dropped at line 133). -/
structure CoefRow where
  order : Int
  fao : Option Int
  territory : String
  rates : List (Option ℚ)

/-- The country exclusion list of `gep_agr.py` lines 44-86, verbatim.  The
source text at line 79 reads `"Czechoslovakia" "Low Income Food Deficit
Countries"` with no comma between the two literals, so Python's implicit
string concatenation makes them a single 47-character element; the list
Python actually builds has 35 elements and is reproduced here exactly. -/
def countries_to_drop : List String :=
  [ "USSR",
    "Yugoslav SFR",
    "World",
    "Africa",
    "Eastern Africa",
    "Middle Africa",
    "Northern Africa",
    "Southern Africa",
    "Western Africa",
    "Americas",
    "Northern America",
    "Central America",
    "Caribbean",
    "South America",
    "Asia",
    "Central Asia",
    "Eastern Asia",
    "Southern Asia",
    "South-eastern Asia",
    "Western Asia",
    "Europe",
    "Eastern Europe",
    "Northern Europe",
    "Southern Europe",
    "Western Europe",
    "Oceania",
    "Australia and New Zealand",
    "Melanesia",
    "Micronesia",
    "Polynesia",
    "European Union (27)",
    "Least Developed Countries",
    "Land Locked Developing Countries",
    "Small Island Developing States",
    "CzechoslovakiaLow Income Food Deficit Countries",
    "Net Food Importing Developing Countries",
    "China, Hong Kong SAR",
    "China, mainland",
    "China, Macao SAR",
    "China, Taiwan Province of",
    "Belgium-Luxembourg" ]

/-- The 62 melted year columns `"1961"…"2022"` of `gep_agr.py` line 94,
as integers (pandas melts the column label as a string and line 101
re-parses it; the labels are decimal numerals, so the round trip is the
identity and the columns are modelled as their integer values). -/
def yearCols : List Int := (List.range 62).map fun i => 1961 + (i : Int)

/-- The filtering prefix of `read_crop_values` (`gep_agr.py` lines 27, 41
and 87): keep unit `"1000 USD"` with element code 57, keep only crops in
the configured `items` allow-list, drop the excluded countries.  Dropping
the `F` flag columns (line 31) has no observable effect on the modelled
fields and is absorbed. -/
def filtered_rows (items : List String) (raw : List WideRow) : List WideRow :=
  ((raw.filter fun r => r.unit == "1000 USD" && r.element_code == 57).filter
      fun r => items.contains r.crop).filter
    fun r => !(countries_to_drop.contains r.country)

/-- The `pd.melt` of `gep_agr.py` lines 91-97: column-major stacking, one
long row per (year column, wide row) pair, year columns outermost in
column order. -/
def melt_years (rows : List WideRow) : List (WideRow × Int) :=
  (yearCols.map fun y => rows.map fun r => (r, y)).flatten

/-- The numeric coercion of a raw `area_code` cell, modelling
`pd.to_numeric(..., errors="coerce")` followed by the `int` cast of
`gep_agr.py` line 100 on a single cell: a (non-negative decimal) integer
numeral — the format of FAO area codes — parses to its value, any other
string coerces to missing. -/
def parseArea (s : String) : Option Int :=
  let cs := s.toList
  if !cs.isEmpty && cs.all Char.isDigit then
    some (cs.foldl (fun a c => a * 10 + ((c.toNat : Int) - 48)) 0)
  else none

/-- The per-row effect of `gep_agr.py` lines 99-102 on one melted row:
coerce `area_code` and `year` to integers and apply the Turkey correction
keyed on the coerced `area_code` (line 102); only reached when every
`area_code` cell of the frame parsed. -/
def coerceLong (p : WideRow × Int) : ValueRecord :=
  let code := (parseArea p.1.area_code).getD 0
  { area_code := code
    country := if code == 223 then "Turkey" else p.1.country
    crop_code := p.1.crop_code
    crop := p.1.crop
    year := p.2
    gep := p.1.gep p.2 }

/-- `read_crop_values` of `gep_agr.py` lines 11-105: filter, melt, then
coerce (lines 99-102).  The `.astype(int)` of line 100 raises on any
`area_code` cell that `to_numeric` coerced to `NaN`, so the whole call is
`none` unless every melted `area_code` parses; the melted year labels are
the numerals of `yearCols` and always parse at line 101. -/
def read_crop_values (items : List String) (raw : List WideRow) :
    Option (List ValueRecord) :=
  if (melt_years (filtered_rows items raw)).all
      (fun p => (parseArea p.1.area_code).isSome) then
    some ((melt_years (filtered_rows items raw)).map coerceLong)
  else none

/-- The `melt` of `gep_agr.py` lines 121-125: stack the decade columns
(every non-id column) column-major, keeping the id columns; each melted
row is `(FAO, decade label, rate cell)`.  `Order` and `Country/territory`
are dropped at line 130 and never used, so they are not carried. -/
def meltCoefs : List String → List CoefRow → List (Option Int × String × Option ℚ)
  | [], _ => []
  | c :: cs, rows =>
    (rows.map fun r => (r.fao, c, r.rates.headD none))
      ++ meltCoefs cs (rows.map fun r => { r with rates := r.rates.tail })

/-- The decade-start extraction of `gep_agr.py` line 126: the regular
expression `^(\d{4})` captures the first four characters when all four are
digits (whatever follows them), otherwise the cell coerces to missing. -/
def extract4 (s : String) : Option Int :=
  let cs := s.toList.take 4
  if cs.length == 4 && cs.all Char.isDigit then
    some (cs.foldl (fun a c => a * 10 + ((c.toNat : Int) - 48)) 0)
  else none

/-- The per-row effect of `gep_agr.py` lines 126-137 on one melted
coefficient row: extract `Decade_start`, drop the row if extraction
failed (line 127) or `FAO` is missing (line 133), cast both to `Int`
(lines 136-137).  The two row-wise drops and the casts fuse into one
partial map. -/
def coefOfMelt (t : Option Int × String × Option ℚ) : Option RateRow :=
  match extract4 t.2.1, t.1 with
  | some y, some f => some ⟨f, y, t.2.2⟩
  | _, _ => none

/-- `read_crop_coefs` of `gep_agr.py` lines 108-141: melt the decade
columns, then extract, drop and cast row-wise.  No sorting happens in
this function. -/
def read_crop_coefs (cols : List String) (rows : List CoefRow) : List RateRow :=
  (meltCoefs cols rows).filterMap coefOfMelt

/-- Multiplication of two possibly-missing cells, the semantics of
`df["gep"] * df["rental_rate"]` at `gep_agr.py` line 174: any missing
operand (`NaN` or `pd.NA`) makes the product missing. -/
def optMul (a b : Option ℚ) : Option ℚ :=
  match a, b with
  | some x, some y => some (x * y)
  | _, _ => none

/-- Key relation for `sort_values("year")` on the coefficient lookup
(`gep_agr.py` line 161). -/
def rateLe (a b : RateRow) : Prop := a.year ≤ b.year

/-- Key relation for `sort_values("year")` on a country partition
(`gep_agr.py` line 160). -/
def valLe (a b : ValueRecord) : Prop := a.year ≤ b.year

/-- Key relation for `sort_values(["area_code", "year"])` on the merged
frame (`gep_agr.py` line 175). -/
def adjLe (a b : AdjRecord) : Prop :=
  a.area_code < b.area_code ∨ (a.area_code = b.area_code ∧ a.year ≤ b.year)

instance : DecidableRel rateLe := fun _ _ => inferInstanceAs (Decidable (_ ≤ _))
instance : DecidableRel valLe := fun _ _ => inferInstanceAs (Decidable (_ ≤ _))
instance : DecidableRel adjLe := fun _ _ => inferInstanceAs (Decidable (_ ∨ _))

/-- The backward as-of match of `pd.merge_asof(..., on="year",
direction="backward")` (`gep_agr.py` lines 164-169) for one left row:
among the (sorted) lookup rows with `year ≤ y`, take the last one and
return its rate; no such row gives a missing rate. -/
def asofRate (lk : List RateRow) (y : Int) : Option ℚ :=
  match (lk.filter fun c => c.year ≤ y).getLast? with
  | none => none
  | some c => c.rental_rate

/-- Extension of a value record with a rental-rate column, as produced for
one row by the merge (or by the `df_group["rental_rate"] = pd.NA` fill of
`gep_agr.py` line 155). -/
def adjOf (r : ValueRecord) (rate : Option ℚ) : AdjRecord :=
  ⟨r.area_code, r.country, r.crop_code, r.crop, r.year, r.gep, rate⟩

/-- The body of the per-country loop of `merge_crop_with_coefs`
(`gep_agr.py` lines 150-170) for one `area_code` group: an empty lookup
fills `pd.NA` (lines 153-157); otherwise both sides are sorted by year and
as-of merged backward (lines 160-169). -/
def ratePart (coefs : List RateRow) (code : Int) (group : List ValueRecord) :
    List AdjRecord :=
  let lk := coefs.filter fun c => c.fao == code
  if lk.isEmpty then
    group.map fun r => adjOf r none
  else
    let g := List.insertionSort valLe group
    let lks := List.insertionSort rateLe lk
    g.map fun r => adjOf r (asofRate lks r.year)

/-- The multiplication `df["gep"] * df["rental_rate"]` of `gep_agr.py`
line 174, row-wise. -/
def applyRate (a : AdjRecord) : AdjRecord :=
  { a with gep := optMul a.gep a.rental_rate }

/-- `merge_crop_with_coefs` of `gep_agr.py` lines 144-177:
`groupby("area_code", sort=True)` enumerates the distinct area codes in
ascending order, each group being the order-preserving filter of the
frame; the per-group results are concatenated, the `gep` column is
multiplied by the `rental_rate` column, and the frame is re-sorted by
`(area_code, year)`.  `pd.concat` raises on an empty list of parts
(line 173), so an empty input frame yields `none`. -/
def merge_crop_with_coefs (vals : List ValueRecord) (coefs : List RateRow) :
    Option (List AdjRecord) :=
  if vals.isEmpty then none
  else
    let codes := List.insertionSort (· ≤ ·) ((vals.map (·.area_code)).dedup)
    let merged := (codes.map fun code =>
      ratePart coefs code (vals.filter fun r => r.area_code == code)).flatten
    some (List.insertionSort adjLe (merged.map applyRate))

/-- The grouping key of `group_crops` (`gep_agr.py` line 184). -/
def key3 (r : AdjRecord) : Int × String × Int := (r.area_code, r.country, r.year)

/-- Ascending lexicographic order on `groupby(["area_code", "country",
"year"], sort=True)` keys. -/
def key3Le (a b : Int × String × Int) : Prop :=
  a.1 < b.1 ∨ (a.1 = b.1 ∧
    (a.2.1 < b.2.1 ∨ (a.2.1 = b.2.1 ∧ a.2.2 ≤ b.2.2)))

instance : DecidableRel key3Le := fun _ _ => inferInstanceAs (Decidable (_ ∨ _))

/-- Key relation for `sort_values(["area_code", "year"])` on the
country-year table (`gep_agr.py` line 185). -/
def cyLe (a b : CYRow) : Prop :=
  a.area_code < b.area_code ∨ (a.area_code = b.area_code ∧ a.year ≤ b.year)

instance : DecidableRel cyLe := fun _ _ => inferInstanceAs (Decidable (_ ∨ _))

/-- The pandas `sum` aggregation over a column of possibly-missing cells
(`gep_agr.py` line 184): missing values are skipped and an all-missing (or
empty) group sums to `0` (`min_count` defaults to `0`). -/
def sumOpt (l : List (Option ℚ)) : ℚ := (l.filterMap id).sum

/-- `group_crops` of `gep_agr.py` lines 180-188: group by
`(area_code, country, year)` with keys ascending, sum the `gep` column per
group, re-sort by `(area_code, year)`.  The `to_numeric` at line 186 is
the identity on the numeric sums and is absorbed. -/
def group_crops (l : List AdjRecord) : List CYRow :=
  let keys := List.insertionSort key3Le ((l.map key3).dedup)
  let rows := keys.map fun k =>
    CYRow.mk k.1 k.2.1 k.2.2 (sumOpt ((l.filter fun r => key3 r == k).map (·.gep)))
  List.insertionSort cyLe rows

/-- `group_countries` of `gep_agr.py` lines 191-200: group the
country-year table by `year` with keys ascending, sum `gep`, rename it to
`total_gep`, and sort by year (the `set_index(..., inplace=False)` at
line 196 discards its result and has no effect). -/
def group_countries (m : List CYRow) : List GYRow :=
  let keys := List.insertionSort (· ≤ ·) ((m.map (·.year)).dedup)
  let rows := keys.map fun y =>
    GYRow.mk y (((m.filter fun r => r.year == y).map (·.gep)).sum)
  List.insertionSort (fun a b => a.year ≤ b.year) rows

/-! ## Order-theoretic facts about the sort keys -/

instance : IsTotal RateRow rateLe := ⟨fun a b => Int.le_total a.year b.year⟩

instance : IsTrans RateRow rateLe := ⟨fun _ _ _ h₁ h₂ => le_trans h₁ h₂⟩

instance : IsTotal ValueRecord valLe := ⟨fun a b => Int.le_total a.year b.year⟩

instance : IsTrans ValueRecord valLe := ⟨fun _ _ _ h₁ h₂ => le_trans h₁ h₂⟩

instance : IsTotal CYRow cyLe := by
  constructor
  intro a b
  unfold cyLe
  omega

instance : IsTrans CYRow cyLe := by
  constructor
  intro a b c h₁ h₂
  unfold cyLe at *
  omega

/-! ## Generic list helpers -/

/-- A list of lists whose members are pointwise permutations has
permutation-equal flattenings. -/
theorem flatten_map_perm {α β : Type} (codes : List α) (f g : α → List β)
    (h : ∀ c ∈ codes, (f c).Perm (g c)) :
    ((codes.map f).flatten).Perm (codes.map g).flatten := by
  induction codes with
  | nil => simp
  | cons c cs ih =>
    simp only [List.map_cons, List.flatten_cons]
    exact (h c (List.mem_cons_self c cs)).append
      (ih fun c' hc' => h c' (List.mem_cons_of_mem _ hc'))

/-- Partitioning a list by the distinct values of a key and concatenating
the parts is a permutation of the list. -/
theorem flatten_filter_perm {β : Type} [DecidableEq β] (key : β → Int) :
    ∀ (codes : List Int) (l : List β), codes.Nodup →
      (∀ r ∈ l, key r ∈ codes) →
      ((codes.map fun code => l.filter fun r => key r == code).flatten).Perm l := by
  intro codes
  induction codes with
  | nil =>
    intro l _ hcomp
    have : l = [] := by
      cases l with
      | nil => rfl
      | cons a t => exact absurd (hcomp a (List.mem_cons_self a t)) (by simp)
    simp [this]
  | cons c cs ih =>
    intro l hnd hcomp
    simp only [List.map_cons, List.flatten_cons]
    have hcn : c ∉ cs := (List.nodup_cons.mp hnd).1
    have hnd' : cs.Nodup := (List.nodup_cons.mp hnd).2
    have hmapeq : (cs.map fun code => l.filter fun r => key r == code)
        = cs.map fun code =>
            (l.filter fun r => !(key r == c)).filter fun r => key r == code := by
      refine List.map_congr_left ?_
      intro code hcode
      rw [List.filter_filter]
      refine (List.filter_congr ?_).symm
      intro r _
      by_cases h : key r = code
      · have hcc : ¬ code = c := fun hc => hcn (hc ▸ hcode)
        have hrc : key r ≠ c := fun h2 => hcc (h ▸ h2)
        simp [h, hrc, hcc]
      · simp [h]
    rw [hmapeq]
    have hcomp' : ∀ r ∈ (l.filter fun r => !(key r == c)), key r ∈ cs := by
      intro r hr
      have hm := List.mem_filter.mp hr
      have h1 := hcomp r hm.1
      have h2 : key r ≠ c := by
        have := hm.2
        simpa using this
      rcases List.mem_cons.mp h1 with h | h
      · exact absurd h h2
      · exact h
    have hperm := ih (l.filter fun r => !(key r == c)) hnd' hcomp'
    exact (hperm.append_left _).trans (List.filter_append_perm _ l)

/-- Summing a constant map. -/
theorem sum_map_const_nat {α : Type} (l : List α) (n : Nat) :
    (l.map fun _ => n).sum = l.length * n := by
  induction l with
  | nil => simp
  | cons a t ih => simp [ih, Nat.succ_mul, Nat.add_comm]

/-- The last element of a list that is pairwise nondecreasing in `year`
bounds the `year` of every member. -/
theorem year_le_getLast {L : List RateRow} (hs : L.Pairwise rateLe) (hne : L ≠ [])
    {x : RateRow} (hx : x ∈ L) : x.year ≤ (L.getLast hne).year := by
  induction L with
  | nil => exact absurd rfl hne
  | cons a t ih =>
    cases t with
    | nil =>
      have : x = a := by simpa using hx
      simp [this, List.getLast]
    | cons b u =>
      have hgl : (a :: b :: u).getLast hne = (b :: u).getLast (by simp) := by
        simp [List.getLast]
      rcases List.mem_cons.mp hx with h | h
      · subst h
        have hrel := List.rel_of_pairwise_cons hs (List.getLast_mem (l := b :: u) (by simp))
        rw [hgl]
        exact hrel
      · have := ih (List.Pairwise.of_cons hs) (by simp) h
        rw [hgl]
        exact this

/-- Behaviour of the backward as-of match on a year-sorted lookup: no
entry at or before `y` gives a missing rate; otherwise the match is the
rate of an entry of maximal year among those `≤ y`. -/
theorem asofRate_max {L : List RateRow} (hs : L.Pairwise rateLe) (y : Int) :
    ((∀ e ∈ L, ¬ e.year ≤ y) → asofRate L y = none) ∧
    (∀ e₀ ∈ L, e₀.year ≤ y →
      ∃ e ∈ L, e.year ≤ y ∧ asofRate L y = e.rental_rate ∧
        ∀ e₂ ∈ L, e₂.year ≤ y → e₂.year ≤ e.year) := by
  constructor
  · intro hnone
    have hF : (L.filter fun c => c.year ≤ y) = [] := by
      rw [List.filter_eq_nil_iff]
      intro e he
      simpa using hnone e he
    simp [asofRate, hF]
  · intro e₀ he₀ hy₀
    have hFne : (L.filter fun c => c.year ≤ y) ≠ [] := by
      intro hF
      rw [List.filter_eq_nil_iff] at hF
      exact (by simpa using hF e₀ he₀ : ¬ e₀.year ≤ y) hy₀
    set F := L.filter fun c => c.year ≤ y with hFdef
    have hlast : F.getLast? = some (F.getLast hFne) := List.getLast?_eq_getLast F hFne
    have hmemF : F.getLast hFne ∈ F := List.getLast_mem hFne
    have hmemL : F.getLast hFne ∈ L := (List.mem_filter.mp hmemF).1
    have hley : (F.getLast hFne).year ≤ y := by
      have := (List.mem_filter.mp hmemF).2
      simpa using this
    refine ⟨F.getLast hFne, hmemL, hley, ?_, ?_⟩
    · simp [asofRate, ← hFdef, hlast]
    · intro e₂ he₂ hy₂
      have he₂F : e₂ ∈ F := List.mem_filter.mpr ⟨he₂, by simpa using hy₂⟩
      exact year_le_getLast (hs.filter _) hFne he₂F

/-! ## C9: reshape cardinality -/

/-- C9: melting the N = 62 year columns 1961-2022 over a filtered wide
table of R rows yields exactly R × N long rows, before the numeric
coercion of lines 99-101 touches the frame. -/
theorem C9_reshape_cardinality (rows : List WideRow) :
    yearCols.length = 62 ∧ (melt_years rows).length = rows.length * 62 := by
  have hy : yearCols.length = 62 := by decide
  refine ⟨hy, ?_⟩
  have h1 : (melt_years rows).length
      = ((yearCols.map fun y => rows.map fun r => (r, y)).map List.length).sum := by
    simp [melt_years]
  rw [h1, List.map_map]
  have h2 : (List.length ∘ fun y : Int => rows.map fun r => (r, y))
      = fun _ => rows.length := by
    funext y
    simp [Function.comp]
  rw [h2, sum_map_const_nat, hy, Nat.mul_comm]

/-! ## C6: numeric coercion in the Value Loader -/

/-- Concrete input refuting C6 as stated: a surviving row whose raw
`area_code` cell is not numeric. -/
def C6badRow : WideRow :=
  ⟨"1000 USD", 57, "n/a", "France", 15, "Wheat", fun _ => some 1⟩

/-- A surviving row whose `area_code` cell parses. -/
def C6goodRow : WideRow :=
  ⟨"1000 USD", 57, "100", "France", 15, "Wheat", fun _ => some 1⟩

/-- C6 counterexample: on a frame containing a row with unparseable
`area_code`, `read_crop_values` fails (the `astype(int)` of line 100
raises on the coerced `NaN`, modelled by `none`); the row is not
discarded and no output is produced, contradicting "discards rows whose
value is unparseable as a number, rather than failing". -/
theorem C6_counterexample : read_crop_values ["Wheat"] [C6badRow] = none := by
  decide

/-- C6 (amended): the Value Loader coerces `area_code` and `year` to
integers, but an unparseable `area_code` cell among the surviving rows
makes the whole load fail rather than being discarded; when every
surviving cell parses, the load succeeds, keeps every melted row, and
each output row carries the parsed integer `area_code` and the melted
year. -/
theorem C6_numeric_coercion (items : List String) (raw : List WideRow) :
    ((∀ p ∈ melt_years (filtered_rows items raw), (parseArea p.1.area_code).isSome) →
      ∃ out, read_crop_values items raw = some out ∧
        out.length = (melt_years (filtered_rows items raw)).length ∧
        ∀ rec ∈ out, ∃ p ∈ melt_years (filtered_rows items raw),
          parseArea p.1.area_code = some rec.area_code ∧ rec.year = p.2) ∧
    ((∃ p ∈ melt_years (filtered_rows items raw), parseArea p.1.area_code = none) →
      read_crop_values items raw = none) := by
  constructor
  · intro hall
    have hcond : (melt_years (filtered_rows items raw)).all
        (fun p => (parseArea p.1.area_code).isSome) = true :=
      List.all_eq_true.mpr fun p hp => hall p hp
    refine ⟨(melt_years (filtered_rows items raw)).map coerceLong, ?_, ?_, ?_⟩
    · simp [read_crop_values, hcond]
    · simp
    · intro rec hrec
      obtain ⟨p, hp, hcoerce⟩ := List.mem_map.mp hrec
      refine ⟨p, hp, ?_, ?_⟩
      · obtain ⟨v, hv⟩ := Option.isSome_iff_exists.mp (hall p hp)
        have : rec.area_code = v := by
          rw [← hcoerce]
          simp [coerceLong, hv]
        rw [this, hv]
      · rw [← hcoerce]
        rfl
  · rintro ⟨p, hp, hnone⟩
    have hcond : (melt_years (filtered_rows items raw)).all
        (fun p => (parseArea p.1.area_code).isSome) = false := by
      rcases h : (melt_years (filtered_rows items raw)).all
          (fun p => (parseArea p.1.area_code).isSome) with _ | _
      · rfl
      · exact absurd (List.all_eq_true.mp h p hp) (by simp [hnone])
    simp [read_crop_values, hcond]

/-- C6 witness: the amended statement applied at concrete frames — one
whose `area_code` cells all parse (the load succeeds) and one with the
unparseable cell (the load fails). -/
theorem C6_numeric_coercion_witness :
    (∃ out, read_crop_values ["Wheat"] [C6goodRow] = some out ∧
        out.length = (melt_years (filtered_rows ["Wheat"] [C6goodRow])).length ∧
        ∀ rec ∈ out, ∃ p ∈ melt_years (filtered_rows ["Wheat"] [C6goodRow]),
          parseArea p.1.area_code = some rec.area_code ∧ rec.year = p.2) ∧
    read_crop_values ["Wheat"] [C6badRow] = none :=
  ⟨(C6_numeric_coercion ["Wheat"] [C6goodRow]).1 (by decide),
   (C6_numeric_coercion ["Wheat"] [C6badRow]).2 (by decide)⟩

/-! ## C7: the country exclusion list -/

/-- A wide row for the historical country "Czechoslovakia" that passes
the unit/element filter and carries an allowed crop. -/
def czWideRow : WideRow :=
  ⟨"1000 USD", 57, "51", "Czechoslovakia", 15, "Wheat", fun _ => some 1⟩

/-- A wide row for the aggregate "Low Income Food Deficit Countries". -/
def lifdcWideRow : WideRow :=
  ⟨"1000 USD", 57, "52", "Low Income Food Deficit Countries", 15, "Wheat",
    fun _ => some 1⟩

/-- C7: the missing comma at `gep_agr.py` line 79 concatenates
`"Czechoslovakia"` and `"Low Income Food Deficit Countries"` into the
single element `"CzechoslovakiaLow Income Food Deficit Countries"`, so
neither name is in the exclusion list the code actually builds, and a
surviving row for either country passes the country filter and reaches
the output (62 melted rows each), contradicting the documented intent of
the list ("drop unwanted countries (aggregates and currently
nonexisting)"). -/
theorem C7_cleaning_gap :
    ¬ ("Czechoslovakia" ∈ countries_to_drop) ∧
    ¬ ("Low Income Food Deficit Countries" ∈ countries_to_drop) ∧
    ("CzechoslovakiaLow Income Food Deficit Countries" ∈ countries_to_drop) ∧
    ((filtered_rows ["Wheat"] [czWideRow]).map (·.country)) = ["Czechoslovakia"] ∧
    ((filtered_rows ["Wheat"] [lifdcWideRow]).map (·.country))
      = ["Low Income Food Deficit Countries"] ∧
    ((read_crop_values ["Wheat"] [czWideRow]).getD []).length = 62 ∧
    (((read_crop_values ["Wheat"] [czWideRow]).getD []).all
      fun r => r.country == "Czechoslovakia") = true := by
  refine ⟨by decide, by decide, by decide, by decide, by decide, by decide, by decide⟩

/-! ## C8: the Coefficient Loader -/

/-- Membership characterisation of `coefOfMelt`. -/
theorem coefOfMelt_eq_some {t : Option Int × String × Option ℚ} {e : RateRow} :
    coefOfMelt t = some e ↔
      t.1 = some e.fao ∧ extract4 t.2.1 = some e.year ∧ t.2.2 = e.rental_rate := by
  unfold coefOfMelt
  rcases hx : extract4 t.2.1 with _ | y <;> rcases hf : t.1 with _ | f <;>
    simp only [hx, hf]
  · simp
  · simp
  · simp
  · constructor
    · rintro h
      cases h
      exact ⟨rfl, rfl, rfl⟩
    · rintro ⟨h1, h2, h3⟩
      cases e
      simp only [Option.some.injEq] at h1 h2
      simp_all

/-- Every melted coefficient row carries one of the decade column labels. -/
theorem mem_meltCoefs_col :
    ∀ {cols : List String} {rows : List CoefRow}
      {t : Option Int × String × Option ℚ},
      t ∈ meltCoefs cols rows → t.2.1 ∈ cols := by
  intro cols
  induction cols with
  | nil => intro rows t h; simp [meltCoefs] at h
  | cons c cs ih =>
    intro rows t h
    rw [meltCoefs, List.mem_append] at h
    rcases h with h | h
    · obtain ⟨r, _, rfl⟩ := List.mem_map.mp h
      exact List.mem_cons_self _ _
    · exact List.mem_cons_of_mem _ (ih h)

/-- Every loader output row's year is the extraction of one of the decade
column labels. -/
theorem mem_read_crop_coefs_year {cols : List String} {rows : List CoefRow}
    {e : RateRow} (h : e ∈ read_crop_coefs cols rows) :
    ∃ c ∈ cols, extract4 c = some e.year := by
  obtain ⟨t, ht, hft⟩ := List.mem_filterMap.mp h
  have h2 := (coefOfMelt_eq_some.mp hft).2.1
  exact ⟨t.2.1, mem_meltCoefs_col ht, h2⟩

/-- When the decade column labels extract to nondecreasing years, the
whole loader output is nondecreasing in `year` (the melt stacks the
columns in order, each column block having one constant year). -/
theorem read_crop_coefs_year_pairwise :
    ∀ (cols : List String),
      (cols.Pairwise fun c₁ c₂ => ∀ y₁ y₂,
        extract4 c₁ = some y₁ → extract4 c₂ = some y₂ → y₁ ≤ y₂) →
      ∀ rows : List CoefRow,
        (read_crop_coefs cols rows).Pairwise fun a b => a.year ≤ b.year := by
  intro cols
  induction cols with
  | nil => intro _ rows; simp [read_crop_coefs, meltCoefs]
  | cons c cs ih =>
    intro h rows
    have hsplit : read_crop_coefs (c :: cs) rows
        = ((rows.map fun r => (r.fao, c, r.rates.headD none)).filterMap coefOfMelt)
          ++ read_crop_coefs cs (rows.map fun r => { r with rates := r.rates.tail }) := by
      rw [read_crop_coefs, meltCoefs, List.filterMap_append]
      rfl
    rw [hsplit, List.pairwise_append]
    have hblock : ∀ e ∈ ((rows.map fun r =>
        (r.fao, c, r.rates.headD none)).filterMap coefOfMelt),
        extract4 c = some e.year := by
      intro e he
      obtain ⟨t, ht, hft⟩ := List.mem_filterMap.mp he
      obtain ⟨r, _, rfl⟩ := List.mem_map.mp ht
      exact (coefOfMelt_eq_some.mp hft).2.1
    refine ⟨?_, ih (List.Pairwise.of_cons h) _, ?_⟩
    · refine List.pairwise_of_forall_mem_list ?_
      intro a ha b hb
      have h1 := hblock a ha
      have h2 := hblock b hb
      rw [h1] at h2
      simp only [Option.some.injEq] at h2
      omega
    · intro a ha b hb
      obtain ⟨c', hc', hc'y⟩ := mem_read_crop_coefs_year hb
      have hrel := List.rel_of_pairwise_cons h hc'
      exact hrel a.year b.year (hblock a ha) hc'y

/-- Concrete coefficient input with its decade columns out of order. -/
def coefColsCE : List String := ["1970s", "1960s"]

/-- A single coefficient row for country code 7 under `coefColsCE`. -/
def coefRowsCE : List CoefRow := [⟨0, some 7, "X", [some (2/10), some (1/10)]⟩]

/-- C8 counterexample: `read_crop_coefs` does not sort — with the decade
columns listed as 1970s then 1960s, the entries for country 7 come out in
column order (1970 before 1960), not ascending by decade start year,
contradicting "returns a rate lookup in which, for each country code, the
entries are sorted ascending by decade_start_year". -/
theorem C8_counterexample :
    ¬ (((read_crop_coefs coefColsCE coefRowsCE).filter
        fun e => e.fao == 7).Pairwise fun a b => a.year ≤ b.year) := by
  decide

/-- C8 (amended): the Coefficient Loader discards exactly the melted rows
where the leading 4-digit extraction fails or the country code is absent,
coercing both to integers on the kept rows (membership in the output is
exactly membership of a successfully extracted melted row); it does not
sort, returning entries in the input's decade-column order, so the
per-country entries are ascending by decade start year whenever the
input's decade columns extract to nondecreasing years (the actual
CWON layout) — the joiner re-sorts before use in any case. -/
theorem C8_coefficient_loader (cols : List String) (rows : List CoefRow) :
    (∀ e ∈ read_crop_coefs cols rows, ∃ t ∈ meltCoefs cols rows,
        t.1 = some e.fao ∧ extract4 t.2.1 = some e.year ∧ t.2.2 = e.rental_rate) ∧
    (∀ t ∈ meltCoefs cols rows, ∀ y f, extract4 t.2.1 = some y → t.1 = some f →
        (⟨f, y, t.2.2⟩ : RateRow) ∈ read_crop_coefs cols rows) ∧
    ((cols.Pairwise fun c₁ c₂ => ∀ y₁ y₂,
        extract4 c₁ = some y₁ → extract4 c₂ = some y₂ → y₁ ≤ y₂) →
      ∀ f, ((read_crop_coefs cols rows).filter
        fun e => e.fao == f).Pairwise fun a b => a.year ≤ b.year) := by
  refine ⟨?_, ?_, ?_⟩
  · intro e he
    obtain ⟨t, ht, hft⟩ := List.mem_filterMap.mp he
    obtain ⟨h1, h2, h3⟩ := coefOfMelt_eq_some.mp hft
    exact ⟨t, ht, h1, h2, h3⟩
  · intro t ht y f hy hf
    refine List.mem_filterMap.mpr ⟨t, ht, ?_⟩
    exact coefOfMelt_eq_some.mpr ⟨hf, hy, rfl⟩
  · intro h f
    exact (read_crop_coefs_year_pairwise cols h rows).sublist
      (List.filter_sublist _)

/-- C8 witness: the amended statement applied at the concrete input, with
the decade columns in their actual ascending order. -/
theorem C8_coefficient_loader_witness :
    ((read_crop_coefs ["1960s", "1970s"] coefRowsCE).filter
      fun e => e.fao == 7).Pairwise fun a b => a.year ≤ b.year :=
  (C8_coefficient_loader ["1960s", "1970s"] coefRowsCE).2.2 (by
    refine List.pairwise_cons.mpr ⟨?_, ?_⟩
    · intro c₂ hc₂ y₁ y₂ h₁ h₂
      have hc : c₂ = "1970s" := by simpa using hc₂
      subst hc
      have e₁ : extract4 "1960s" = some 1960 := by decide
      have e₂ : extract4 "1970s" = some 1970 := by decide
      rw [e₁] at h₁
      rw [e₂] at h₂
      cases h₁
      cases h₂
      omega
    · simp) 7

/-! ## The merge: origin of each output row -/

/-- The identity fields of a value record (everything except `gep`). -/
def keyOfVal (r : ValueRecord) : Int × String × Int × String × Int :=
  (r.area_code, r.country, r.crop_code, r.crop, r.year)

/-- The identity fields of a merged record (everything except `gep` and
`rental_rate`). -/
def keyOfAdj (a : AdjRecord) : Int × String × Int × String × Int :=
  (a.area_code, a.country, a.crop_code, a.crop, a.year)

/-- Origin of a merged row: every row of the merge output comes from an
input value record with the same identity fields; its `gep` is the input
`gep` times the attached rate, and the attached rate is missing when the
country has no lookup rows, or else the as-of match against the
country's year-sorted lookup. -/
theorem mem_merge {vals : List ValueRecord} {coefs : List RateRow}
    {out : List AdjRecord} (hout : merge_crop_with_coefs vals coefs = some out)
    {rec : AdjRecord} (hmem : rec ∈ out) :
    ∃ r ∈ vals, rec.area_code = r.area_code ∧ rec.country = r.country ∧
      rec.crop_code = r.crop_code ∧ rec.crop = r.crop ∧ rec.year = r.year ∧
      rec.gep = optMul r.gep rec.rental_rate ∧
      (((coefs.filter fun c => c.fao == r.area_code) = []) →
        rec.rental_rate = none) ∧
      (((coefs.filter fun c => c.fao == r.area_code) ≠ []) →
        rec.rental_rate = asofRate
          (List.insertionSort rateLe (coefs.filter fun c => c.fao == r.area_code))
          r.year) := by
  cases hv : vals.isEmpty with
  | true => simp [merge_crop_with_coefs, hv] at hout
  | false =>
    simp only [merge_crop_with_coefs, hv, Bool.false_eq_true, if_false,
      Option.some.injEq] at hout
    rw [← hout] at hmem
    rw [(List.perm_insertionSort adjLe _).mem_iff] at hmem
    obtain ⟨a, ha, harec⟩ := List.mem_map.mp hmem
    obtain ⟨L, hL, haL⟩ := List.mem_flatten.mp ha
    obtain ⟨code, hcode, hLpart⟩ := List.mem_map.mp hL
    rw [← hLpart] at haL
    by_cases hlk : (coefs.filter fun c => c.fao == code).isEmpty
    · rw [ratePart, if_pos hlk] at haL
      obtain ⟨r, hr, hra⟩ := List.mem_map.mp haL
      have hrv := List.mem_filter.mp hr
      have hrcode : r.area_code = code := by simpa using hrv.2
      have hfe : (coefs.filter fun c => c.fao == r.area_code) = [] := by
        rw [hrcode]
        exact List.isEmpty_iff.mp hlk
      refine ⟨r, hrv.1, ?_⟩
      rw [← harec, ← hra]
      refine ⟨rfl, rfl, rfl, rfl, rfl, rfl, fun _ => rfl, fun hcon => ?_⟩
      exact absurd hfe hcon
    · rw [ratePart, if_neg hlk] at haL
      obtain ⟨r, hr, hra⟩ := List.mem_map.mp haL
      rw [(List.perm_insertionSort valLe _).mem_iff] at hr
      have hrv := List.mem_filter.mp hr
      have hrcode : r.area_code = code := by simpa using hrv.2
      have hfe : (coefs.filter fun c => c.fao == r.area_code) ≠ [] := by
        rw [hrcode]
        intro h
        rw [List.isEmpty_iff] at hlk
        exact hlk h
      refine ⟨r, hrv.1, ?_⟩
      rw [← harec, ← hra]
      refine ⟨rfl, rfl, rfl, rfl, rfl, rfl, fun hcon => absurd hcon ?_, fun _ => ?_⟩
      · rw [hrcode]
        intro h
        rw [List.isEmpty_iff] at hlk
        exact hlk h
      · rw [hrcode]
        rfl

/-! ## C1: as-of join correctness -/

/-- C1: for every merged row of a country that has at least one rate
entry, the attached rate is that of an entry with the largest decade
start year `≤` the row's year (boundary inclusive: an entry whose year
equals the row's year is eligible), and the rate is missing when every
entry of the country starts strictly after the row's year. -/
theorem C1_asof_join (vals : List ValueRecord) (coefs : List RateRow)
    (out : List AdjRecord) (hout : merge_crop_with_coefs vals coefs = some out)
    (rec : AdjRecord) (hmem : rec ∈ out)
    (hcov : ∃ e ∈ coefs, e.fao = rec.area_code) :
    ((∃ e ∈ coefs, e.fao = rec.area_code ∧ e.year ≤ rec.year) →
      ∃ e ∈ coefs, e.fao = rec.area_code ∧ e.year ≤ rec.year ∧
        rec.rental_rate = e.rental_rate ∧
        ∀ e₂ ∈ coefs, e₂.fao = rec.area_code → e₂.year ≤ rec.year →
          e₂.year ≤ e.year) ∧
    ((∀ e ∈ coefs, e.fao = rec.area_code → rec.year < e.year) →
      rec.rental_rate = none) := by
  obtain ⟨r, hrv, hac, -, -, -, hyr, -, -, hrate⟩ := mem_merge hout hmem
  obtain ⟨e₀, he₀, hf₀⟩ := hcov
  have hfne : (coefs.filter fun c => c.fao == r.area_code) ≠ [] := by
    have : e₀ ∈ coefs.filter fun c => c.fao == r.area_code :=
      List.mem_filter.mpr ⟨he₀, by simp [hf₀, ← hac]⟩
    exact List.ne_nil_of_mem this
  have hrr := hrate hfne
  have hs : (List.insertionSort rateLe
      (coefs.filter fun c => c.fao == r.area_code)).Pairwise rateLe :=
    List.sorted_insertionSort rateLe _
  have hmemiff : ∀ e : RateRow,
      e ∈ List.insertionSort rateLe (coefs.filter fun c => c.fao == r.area_code)
        ↔ (e ∈ coefs ∧ e.fao = r.area_code) := by
    intro e
    rw [(List.perm_insertionSort rateLe _).mem_iff, List.mem_filter]
    simp
  constructor
  · rintro ⟨e₁, he₁, hf₁, hy₁⟩
    have he₁s : e₁ ∈ List.insertionSort rateLe
        (coefs.filter fun c => c.fao == r.area_code) :=
      (hmemiff e₁).mpr ⟨he₁, by rw [hf₁, hac]⟩
    obtain ⟨e, hes, hey, heq, hmax⟩ :=
      (asofRate_max hs r.year).2 e₁ he₁s (by rw [← hyr]; exact hy₁)
    obtain ⟨hec, hef⟩ := (hmemiff e).mp hes
    refine ⟨e, hec, by rw [hef, hac], by rw [hyr]; exact hey, by rw [hrr, heq], ?_⟩
    intro e₂ he₂ hf₂ hy₂
    exact hmax e₂ ((hmemiff e₂).mpr ⟨he₂, by rw [hf₂, hac]⟩) (by rw [← hyr]; exact hy₂)
  · intro hnone
    rw [hrr]
    refine (asofRate_max hs r.year).1 ?_
    intro e hes
    obtain ⟨hec, hef⟩ := (hmemiff e).mp hes
    have := hnone e hec (by rw [hef, hac])
    omega

/-- The concrete rate table of the claim: decades 1960, 1970, 1980 with
rates .10, .20, .30 for country code 1. -/
def coefsW : List RateRow :=
  [⟨1, 1960, some (1/10)⟩, ⟨1, 1970, some (2/10)⟩, ⟨1, 1980, some (3/10)⟩]

/-- Value rows of country 1 at the years of the claim's concrete cases. -/
def valsW : List ValueRecord :=
  [⟨1, "A", 5, "c", 1975, some 100⟩, ⟨1, "A", 5, "c", 1955, some 100⟩,
   ⟨1, "A", 5, "c", 2020, some 100⟩, ⟨1, "A", 5, "c", 1970, some 100⟩]

/-- The merged row at year 1975 (rate .20 carried forward from 1970). -/
def recW1975 : AdjRecord := ⟨1, "A", 5, "c", 1975, some 20, some (1/5)⟩

/-- The merged row at year 1955 (before the earliest decade: absent). -/
def recW1955 : AdjRecord := ⟨1, "A", 5, "c", 1955, none, none⟩

/-- The merged row at year 2020 (rate .30 carried forward from 1980). -/
def recW2020 : AdjRecord := ⟨1, "A", 5, "c", 2020, some 30, some (3/10)⟩

/-- The merged row at year 1970 (boundary inclusive: rate .20). -/
def recW1970 : AdjRecord := ⟨1, "A", 5, "c", 1970, some 20, some (1/5)⟩


/-- The merged output of `valsW` with `coefsW`, as an explicit table. -/
def mergedW : List AdjRecord := [recW1955, recW1970, recW1975, recW2020]

/-- Evaluation of the merge on the claim's concrete example. -/
theorem mergedW_eval : merge_crop_with_coefs valsW coefsW = some mergedW := by
  norm_num [merge_crop_with_coefs, valsW, coefsW, ratePart, asofRate, adjOf,
    applyRate, optMul, rateLe, valLe, adjLe, mergedW, recW1955, recW1970,
    recW1975, recW2020, List.dedup, List.insertionSort, List.orderedInsert,
    List.filter]

/-- C1 witness: the theorem applied at the claim's concrete example —
decades [1960, 1970, 1980] with rates [.10, .20, .30]; year 1975 resolves
.20, year 1955 resolves absent, year 2020 resolves .30, and year 1970
(the boundary) resolves .20. -/
theorem C1_asof_join_witness :
    (∃ e ∈ coefsW, e.fao = recW1975.area_code ∧ e.year ≤ recW1975.year ∧
        recW1975.rental_rate = e.rental_rate ∧
        ∀ e₂ ∈ coefsW, e₂.fao = recW1975.area_code → e₂.year ≤ recW1975.year →
          e₂.year ≤ e.year) ∧
    recW1955.rental_rate = none ∧
    recW1975 ∈ mergedW ∧ recW1955 ∈ mergedW ∧ recW2020 ∈ mergedW ∧
    recW1970 ∈ mergedW ∧
    recW1975.rental_rate = some (1/5) ∧ recW2020.rental_rate = some (3/10) ∧
    recW1970.rental_rate = some (1/5) :=
  ⟨(C1_asof_join valsW coefsW mergedW mergedW_eval recW1975
      (by simp [mergedW]) (by simp [coefsW, recW1975])).1
      (by simp [coefsW, recW1975]),
   (C1_asof_join valsW coefsW mergedW mergedW_eval recW1955
      (by simp [mergedW]) (by simp [coefsW, recW1955])).2
      (by simp [coefsW, recW1955]),
   by simp [mergedW], by simp [mergedW], by simp [mergedW], by simp [mergedW],
   rfl, rfl, rfl⟩

/-! ## C2: null propagation through the rate application -/

/-- C2: after the join, each output row's adjusted gep is the input gep
times the resolved rate when both are present, and is missing whenever
the rate (or the input gep) is missing — nulls propagate, nothing is
zero-filled. -/
theorem C2_null_propagation (vals : List ValueRecord) (coefs : List RateRow)
    (out : List AdjRecord) (hout : merge_crop_with_coefs vals coefs = some out) :
    ∀ rec ∈ out, ∃ r ∈ vals,
      rec.area_code = r.area_code ∧ rec.country = r.country ∧
      rec.crop_code = r.crop_code ∧ rec.crop = r.crop ∧ rec.year = r.year ∧
      rec.gep = optMul r.gep rec.rental_rate ∧
      (rec.rental_rate = none → rec.gep = none) ∧
      (∀ g rt, r.gep = some g → rec.rental_rate = some rt →
        rec.gep = some (g * rt)) := by
  intro rec hmem
  obtain ⟨r, hrv, h1, h2, h3, h4, h5, h6, -, -⟩ := mem_merge hout hmem
  refine ⟨r, hrv, h1, h2, h3, h4, h5, h6, ?_, ?_⟩
  · intro hnone
    rw [h6, hnone]
    cases r.gep <;> rfl
  · intro g rt hg hrt
    rw [h6, hg, hrt]
    rfl

/-- C2 witness: the theorem applied at the concrete merge — at year 1975
the adjusted gep is 100 × .20 = 20; at year 1955 no rate resolves and the
adjusted gep is absent, not zero. -/
theorem C2_null_propagation_witness :
    (∃ r ∈ valsW,
      recW1955.area_code = r.area_code ∧ recW1955.country = r.country ∧
      recW1955.crop_code = r.crop_code ∧ recW1955.crop = r.crop ∧
      recW1955.year = r.year ∧
      recW1955.gep = optMul r.gep recW1955.rental_rate ∧
      (recW1955.rental_rate = none → recW1955.gep = none) ∧
      (∀ g rt, r.gep = some g → recW1955.rental_rate = some rt →
        recW1955.gep = some (g * rt))) ∧
    recW1955.gep = none ∧ recW1975.gep = some 20 :=
  ⟨C2_null_propagation valsW coefsW mergedW mergedW_eval recW1955
      (by simp [mergedW]),
   rfl, rfl⟩

/-! ## C3: the join drops no rows -/

/-- The merged frame is, on the identity fields, a permutation of the
input value frame. -/
theorem merge_key_perm {vals : List ValueRecord} {coefs : List RateRow}
    {out : List AdjRecord} (hout : merge_crop_with_coefs vals coefs = some out) :
    (out.map keyOfAdj).Perm (vals.map keyOfVal) := by
  cases hv : vals.isEmpty with
  | true => simp [merge_crop_with_coefs, hv] at hout
  | false =>
    simp only [merge_crop_with_coefs, hv, Bool.false_eq_true, if_false,
      Option.some.injEq] at hout
    set codes := List.insertionSort (fun a b => a ≤ b)
      ((vals.map (·.area_code)).dedup) with hcodes
    have h1 : out.Perm (((codes.map fun code =>
        ratePart coefs code (vals.filter fun r => r.area_code == code)).flatten).map
        applyRate) := by
      rw [← hout]
      exact List.perm_insertionSort adjLe _
    have h2 := h1.map keyOfAdj
    rw [List.map_map] at h2
    have hkey : keyOfAdj ∘ applyRate = keyOfAdj := funext fun a => rfl
    rw [hkey, List.map_flatten, List.map_map] at h2
    have h3 : ∀ code ∈ codes,
        ((ratePart coefs code (vals.filter fun r => r.area_code == code)).map
          keyOfAdj).Perm
        ((vals.filter fun r => r.area_code == code).map keyOfVal) := by
      intro code _
      rw [ratePart]
      by_cases hlk : (coefs.filter fun c => c.fao == code).isEmpty
      · rw [if_pos hlk, List.map_map]
        have : keyOfAdj ∘ (fun r => adjOf r none) = keyOfVal := funext fun r => rfl
        rw [this]
      · rw [if_neg hlk, List.map_map]
        have : (keyOfAdj ∘ fun r => adjOf r (asofRate
            (List.insertionSort rateLe (coefs.filter fun c => c.fao == code))
            r.year)) = keyOfVal := funext fun r => rfl
        rw [this]
        exact (List.perm_insertionSort valLe _).map keyOfVal
    have h4 := flatten_map_perm codes _ _ h3
    have h5 : ((codes.map fun code =>
        (vals.filter fun r => r.area_code == code).map keyOfVal).flatten).Perm
        (vals.map keyOfVal) := by
      have h6 : (codes.map fun code =>
          (vals.filter fun r => r.area_code == code).map keyOfVal)
          = (codes.map fun code =>
              vals.filter fun r => r.area_code == code).map (List.map keyOfVal) := by
        rw [List.map_map]
        rfl
      rw [h6, ← List.map_flatten]
      refine List.Perm.map keyOfVal ?_
      refine flatten_filter_perm (·.area_code) codes vals ?_ ?_
      · exact ((vals.map (·.area_code)).nodup_dedup).perm
          (List.perm_insertionSort _ _).symm
      · intro r hr
        rw [hcodes, (List.perm_insertionSort _ _).mem_iff, List.mem_dedup]
        exact List.mem_map_of_mem _ hr
    exact (h2.trans h4).trans h5

/-- C3: on any nonempty input frame the merge succeeds, its output has
exactly the input's rows (same length, identity fields a permutation of
the input's, rows extended only with the rate), and a country with no
lookup entry keeps all of its rows — with a missing rate on every one of
them. -/
theorem C3_no_rows_dropped (vals : List ValueRecord) (coefs : List RateRow)
    (hne : vals ≠ []) :
    ∃ out, merge_crop_with_coefs vals coefs = some out ∧
      out.length = vals.length ∧
      (out.map keyOfAdj).Perm (vals.map keyOfVal) ∧
      ∀ code, (∀ e ∈ coefs, ¬ e.fao = code) →
        (out.filter fun rec => rec.area_code == code).length
          = (vals.filter fun r => r.area_code == code).length ∧
        ∀ rec ∈ out, rec.area_code = code → rec.rental_rate = none := by
  have hv : vals.isEmpty = false := by
    cases vals with
    | nil => exact absurd rfl hne
    | cons a t => rfl
  obtain ⟨out, hout⟩ : ∃ out, merge_crop_with_coefs vals coefs = some out := by
    rw [merge_crop_with_coefs, hv]
    exact ⟨_, rfl⟩
  have hperm := merge_key_perm hout
  refine ⟨out, hout, ?_, hperm, ?_⟩
  · have := hperm.length_eq
    simpa using this
  · intro code hnocode
    constructor
    · have hfp := hperm.filter fun k => k.1 == code
      rw [List.filter_map, List.filter_map] at hfp
      have e1 : ((fun k : Int × String × Int × String × Int => k.1 == code)
          ∘ keyOfAdj) = fun rec : AdjRecord => rec.area_code == code := rfl
      have e2 : ((fun k : Int × String × Int × String × Int => k.1 == code)
          ∘ keyOfVal) = fun r : ValueRecord => r.area_code == code := rfl
      rw [e1, e2] at hfp
      have := hfp.length_eq
      simpa using this
    · intro rec hrec hcode
      obtain ⟨r, hrv, hac, -, -, -, -, -, hempty, -⟩ := mem_merge hout hrec
      refine hempty ?_
      rw [List.filter_eq_nil_iff]
      intro e he
      have := hnocode e he
      simp only [beq_iff_eq]
      rw [← hac, hcode]
      exact fun h => this h

/-- A one-row frame for a country (code 9) with no lookup entries. -/
def valsU : List ValueRecord := [⟨9, "B", 5, "c", 1970, some 100⟩]

/-- C3 witness: the theorem applied to the concrete covered frame and to
a frame whose only country is absent from the lookup. -/
theorem C3_no_rows_dropped_witness :
    (∃ out, merge_crop_with_coefs valsW coefsW = some out ∧
      out.length = valsW.length ∧
      (out.map keyOfAdj).Perm (valsW.map keyOfVal) ∧
      ∀ code, (∀ e ∈ coefsW, ¬ e.fao = code) →
        (out.filter fun rec => rec.area_code == code).length
          = (valsW.filter fun r => r.area_code == code).length ∧
        ∀ rec ∈ out, rec.area_code = code → rec.rental_rate = none) ∧
    (∃ out, merge_crop_with_coefs valsU coefsW = some out ∧
      out.length = valsU.length ∧
      (out.map keyOfAdj).Perm (valsU.map keyOfVal) ∧
      ∀ code, (∀ e ∈ coefsW, ¬ e.fao = code) →
        (out.filter fun rec => rec.area_code == code).length
          = (valsU.filter fun r => r.area_code == code).length ∧
        ∀ rec ∈ out, rec.area_code = code → rec.rental_rate = none) :=
  ⟨C3_no_rows_dropped valsW coefsW (by simp [valsW]),
   C3_no_rows_dropped valsU coefsW (by simp [valsU])⟩

/-! ## Membership in the grouped tables -/

/-- Each country-year row comes from a distinct grouping key of the
input, with `gep` the group's (missing-skipping) sum. -/
theorem mem_group_crops {l : List AdjRecord} {c : CYRow} (h : c ∈ group_crops l) :
    ∃ k ∈ (l.map key3).dedup,
      c = CYRow.mk k.1 k.2.1 k.2.2
        (sumOpt ((l.filter fun r => key3 r == k).map (·.gep))) := by
  rw [group_crops, (List.perm_insertionSort cyLe _).mem_iff] at h
  obtain ⟨k, hk, hck⟩ := List.mem_map.mp h
  exact ⟨k, (List.perm_insertionSort key3Le _).mem_iff.mp hk, hck.symm⟩

/-- Conversely, every distinct grouping key of the input yields its
country-year row. -/
theorem group_crops_mem {l : List AdjRecord} {k : Int × String × Int}
    (hk : k ∈ (l.map key3).dedup) :
    CYRow.mk k.1 k.2.1 k.2.2
      (sumOpt ((l.filter fun r => key3 r == k).map (·.gep))) ∈ group_crops l := by
  rw [group_crops, (List.perm_insertionSort cyLe _).mem_iff]
  exact List.mem_map_of_mem _ ((List.perm_insertionSort key3Le _).mem_iff.mpr hk)

/-- Each global row comes from a distinct year of the country-year
table, with `total_gep` the year's sum. -/
theorem mem_group_countries {m : List CYRow} {g : GYRow}
    (h : g ∈ group_countries m) :
    ∃ y ∈ (m.map (·.year)).dedup,
      g = GYRow.mk y (((m.filter fun r => r.year == y).map (·.gep)).sum) := by
  rw [group_countries, (List.perm_insertionSort _ _).mem_iff] at h
  obtain ⟨y, hy, hgy⟩ := List.mem_map.mp h
  exact ⟨y, (List.perm_insertionSort _ _).mem_iff.mp hy, hgy.symm⟩

/-! ## C10: identifier stability for area code 223 -/

/-- C10: every Value Loader output row with area code 223 has country
"Turkey" regardless of the raw label, and the property is preserved by
the joiner and by the country-year aggregation (the global table carries
no country name). -/
theorem C10_turkey_stability :
    (∀ (items : List String) (raw : List WideRow) (out : List ValueRecord),
        read_crop_values items raw = some out →
        ∀ rec ∈ out, rec.area_code = 223 → rec.country = "Turkey") ∧
    (∀ (vals : List ValueRecord) (coefs : List RateRow) (out : List AdjRecord),
        merge_crop_with_coefs vals coefs = some out →
        (∀ r ∈ vals, r.area_code = 223 → r.country = "Turkey") →
        ∀ rec ∈ out, rec.area_code = 223 → rec.country = "Turkey") ∧
    (∀ l : List AdjRecord,
        (∀ r ∈ l, r.area_code = 223 → r.country = "Turkey") →
        ∀ c ∈ group_crops l, c.area_code = 223 → c.country = "Turkey") := by
  refine ⟨?_, ?_, ?_⟩
  · intro items raw out hout rec hrec h223
    cases hcond : (melt_years (filtered_rows items raw)).all
        (fun p => (parseArea p.1.area_code).isSome) with
    | false => simp [read_crop_values, hcond] at hout
    | true =>
      simp only [read_crop_values, hcond, if_true, Option.some.injEq] at hout
      rw [← hout] at hrec
      obtain ⟨p, hp, hcp⟩ := List.mem_map.mp hrec
      rw [← hcp] at h223 ⊢
      simp only [coerceLong] at h223 ⊢
      rw [h223]
      rfl
  · intro vals coefs out hout hvals rec hrec h223
    obtain ⟨r, hrv, hac, hcountry, -, -, -, -, -, -⟩ := mem_merge hout hrec
    rw [hcountry]
    exact hvals r hrv (by rw [← hac, h223])
  · intro l hl c hc h223
    obtain ⟨k, hk, hck⟩ := mem_group_crops hc
    have hkmem : k ∈ l.map key3 := List.mem_dedup.mp hk
    obtain ⟨r, hr, hrk⟩ := List.mem_map.mp hkmem
    have hca : c.area_code = k.1 := by rw [hck]
    have hcc : c.country = k.2.1 := by rw [hck]
    rw [hcc, ← hrk]
    refine hl r hr ?_
    have : r.area_code = k.1 := by rw [← hrk]; rfl
    rw [this, ← hca]
    exact h223

/-- A raw Turkey wide row carrying a stale display label. -/
def turkeyRaw : WideRow :=
  ⟨"1000 USD", 57, "223", "Turkiye", 15, "Wheat", fun _ => some 1⟩

/-- A value frame for area code 223 after loader correction. -/
def vals223 : List ValueRecord := [⟨223, "Turkey", 5, "c", 1970, some 100⟩]

/-- The merge of `vals223` against a lookup with no entry for 223. -/
def out223 : List AdjRecord := [⟨223, "Turkey", 5, "c", 1970, none, none⟩]

/-- C10 witness: the three preservation statements applied at concrete
inputs — a raw Turkey row with a stale label is corrected by the loader,
and the corrected name survives the merge and the country-year
aggregation. -/
theorem C10_turkey_stability_witness :
    (∀ rec ∈ (melt_years (filtered_rows ["Wheat"] [turkeyRaw])).map coerceLong,
        rec.area_code = 223 → rec.country = "Turkey") ∧
    ((⟨223, "Turkey", 5, "c", 1970, none, none⟩ : AdjRecord).country = "Turkey") ∧
    ((⟨223, "Turkey", 1970, 0⟩ : CYRow).country = "Turkey") := by
  refine ⟨?_, ?_, ?_⟩
  · refine C10_turkey_stability.1 ["Wheat"] [turkeyRaw] _ ?_
    rw [read_crop_values, if_pos]
    have hcond : (melt_years (filtered_rows ["Wheat"] [turkeyRaw])).all
        (fun p => (parseArea p.1.area_code).isSome) = true := by decide
    rw [hcond]
  · exact C10_turkey_stability.2.1 vals223 coefsW out223 (by decide)
      (by simp [vals223]) _ (by simp [out223]) rfl
  · exact C10_turkey_stability.2.2 out223 (by simp [out223])
      ⟨223, "Turkey", 1970, 0⟩ (by decide) rfl

/-! ## C4: the implemented null-contribution policy -/

/-- The missing-skipping sum equals the plain sum of the present values. -/
theorem sumOpt_eq_sum_present (m : List (Option ℚ)) :
    sumOpt m = ((m.filter fun o => o.isSome).map fun o => o.getD 0).sum := by
  induction m with
  | nil => rfl
  | cons o t ih =>
    cases o with
    | none => simpa [sumOpt, List.filterMap_cons] using ih
    | some x =>
      simp only [sumOpt, List.filterMap_cons] at ih ⊢
      simp [ih]

/-- An all-missing column sums to zero. -/
theorem sumOpt_eq_zero {m : List (Option ℚ)} (h : ∀ o ∈ m, o = none) :
    sumOpt m = 0 := by
  rw [sumOpt, show List.filterMap id m = [] from List.filterMap_eq_nil_iff.mpr h]
  rfl

/-- C4: in `group_crops`, missing adjusted gep values are excluded from
the group sums (each output `gep` is the plain sum of the group's present
values), and a group whose every row has missing gep sums to 0 — not to
missing; the same zero result appears per year in the global table. -/
theorem C4_null_policy (l : List AdjRecord) :
    (∀ c ∈ group_crops l,
      c.gep = (((l.filter fun r =>
            key3 r == (c.area_code, c.country, c.year)).filter
          fun r => r.gep.isSome).map fun r => r.gep.getD 0).sum ∧
      ((∀ r ∈ l, r.area_code = c.area_code → r.country = c.country →
          r.year = c.year → r.gep = none) → c.gep = 0)) ∧
    (∀ g ∈ group_countries (group_crops l),
      (∀ r ∈ l, r.year = g.year → r.gep = none) → g.total_gep = 0) := by
  have main : ∀ c ∈ group_crops l,
      c.gep = (((l.filter fun r =>
            key3 r == (c.area_code, c.country, c.year)).filter
          fun r => r.gep.isSome).map fun r => r.gep.getD 0).sum ∧
      ((∀ r ∈ l, r.area_code = c.area_code → r.country = c.country →
          r.year = c.year → r.gep = none) → c.gep = 0) := by
    intro c hc
    obtain ⟨k, hk, hck⟩ := mem_group_crops hc
    subst hck
    constructor
    · rw [sumOpt_eq_sum_present]
      rw [List.filter_map, List.map_map]
      rfl
    · intro hall
      refine sumOpt_eq_zero ?_
      intro o ho
      obtain ⟨r, hr, hro⟩ := List.mem_map.mp ho
      have hrl := List.mem_filter.mp hr
      have hkey : key3 r = k := by
        have := hrl.2
        simpa using this
      have h1 : r.area_code = k.1 := by rw [← hkey]; rfl
      have h2 : r.country = k.2.1 := by rw [← hkey]; rfl
      have h3 : r.year = k.2.2 := by rw [← hkey]; rfl
      rw [← hro]
      exact hall r hrl.1 h1 h2 h3
  refine ⟨main, ?_⟩
  intro g hg hall
  obtain ⟨y, hy, hgy⟩ := mem_group_countries hg
  subst hgy
  refine List.sum_eq_zero ?_
  intro x hx
  obtain ⟨c, hc, hcx⟩ := List.mem_map.mp hx
  have hcf := List.mem_filter.mp hc
  have hcy : c.year = y := by
    have := hcf.2
    simpa using this
  rw [← hcx]
  refine (main c hcf.1).2 ?_
  intro r hr _ _ hyr
  refine hall r hr ?_
  show r.year = y
  rw [hyr, hcy]

/-- C4 witness: the theorem applied to the concrete uncovered country —
all its adjusted geps are missing, yet its country-year row sums to 0 and
the global row at its year sums to 0. -/
theorem C4_null_policy_witness :
    ((⟨223, "Turkey", 1970, 0⟩ : CYRow).gep = 0) ∧
    ((⟨1970, 0⟩ : GYRow).total_gep = 0) :=
  ⟨((C4_null_policy out223).1 ⟨223, "Turkey", 1970, 0⟩ (by decide)).2
      (by simp [out223]),
   (C4_null_policy out223).2 ⟨1970, 0⟩ (by
      have h1 : group_crops out223 = [⟨223, "Turkey", 1970, 0⟩] := by decide
      rw [h1]
      have h2 : group_countries [(⟨223, "Turkey", 1970, 0⟩ : CYRow)]
          = [⟨1970, 0⟩] := by
        norm_num [group_countries, List.dedup, List.insertionSort,
          List.orderedInsert]
      rw [h2]
      simp) (by simp [out223])⟩

/-! ## C5: level-to-level aggregation consistency -/

/-- The spec's level-1 consistency grouping key `(area_code, year)`. -/
def key2 (r : AdjRecord) : Int × Int := (r.area_code, r.year)

/-- Ascending lexicographic order on `(area_code, year)` keys. -/
def pairLe (a b : Int × Int) : Prop := a.1 < b.1 ∨ (a.1 = b.1 ∧ a.2 ≤ b.2)

instance : DecidableRel pairLe := fun _ _ => inferInstanceAs (Decidable (_ ∨ _))

instance : IsTotal (Int × Int) pairLe := by
  constructor
  intro a b
  unfold pairLe
  omega

instance : IsTrans (Int × Int) pairLe := by
  constructor
  intro a b c h₁ h₂
  unfold pairLe at *
  omega

/-- Strict lexicographic order on `(area_code, year, gep)` triples by
their first two components. -/
def triLt (a b : Int × Int × ℚ) : Prop :=
  a.1 < b.1 ∨ (a.1 = b.1 ∧ a.2.1 < b.2.1)

instance : IsAntisymm (Int × Int × ℚ) triLt := by
  constructor
  intro a b h₁ h₂
  exfalso
  unfold triLt at *
  omega

/-- Stated from the spec's words ("summing the crop-level table by
(area_code, year)"): group the merged frame by `(area_code, year)` alone,
keys ascending, summing adjusted gep under the same missing-skipping
sum. -/
def spec_sum_by_area_year (l : List AdjRecord) : List (Int × Int × ℚ) :=
  (List.insertionSort pairLe ((l.map key2).dedup)).map fun k =>
    (k.1, k.2, sumOpt ((l.filter fun r => key2 r == k).map (·.gep)))

/-- Stated from the spec's words ("summing the country-year table by
year"): group the country-year table by year, keys ascending, summing
gep. -/
def spec_sum_by_year (m : List CYRow) : List (Int × ℚ) :=
  (List.insertionSort (fun a b => a ≤ b) ((m.map (·.year)).dedup)).map fun y =>
    (y, ((m.filter fun r => r.year == y).map (·.gep)).sum)

/-- The display name is a function of the area code within the frame —
the spec's invariant that `area_code` is the canonical key and `country`
only a display label. -/
def countryConsistent (l : List AdjRecord) : Prop :=
  ∀ r₁ ∈ l, ∀ r₂ ∈ l, r₁.area_code = r₂.area_code → r₁.country = r₂.country

instance (l : List AdjRecord) : Decidable (countryConsistent l) :=
  inferInstanceAs (Decidable (∀ r₁ ∈ l, ∀ r₂ ∈ l, _ → _))

/-- Under country consistency, grouping by the full key
`(area_code, country, year)` selects the same rows as grouping by
`(area_code, year)`. -/
theorem filter_key3_eq_filter_key2 {l : List AdjRecord}
    (hc : countryConsistent l) {k : Int × String × Int} (hk : k ∈ l.map key3) :
    (l.filter fun r => key3 r == k)
      = (l.filter fun r => key2 r == (k.1, k.2.2)) := by
  obtain ⟨r0, hr0, hr0k⟩ := List.mem_map.mp hk
  refine List.filter_congr ?_
  intro r hr
  rw [Bool.eq_iff_iff, beq_iff_eq, beq_iff_eq]
  constructor
  · intro h3
    have h1 : r.area_code = k.1 := congrArg Prod.fst h3
    have h2 : r.year = k.2.2 := congrArg (fun p => p.2.2) h3
    exact Prod.ext_iff.mpr ⟨h1, h2⟩
  · intro h2
    have ha : r.area_code = k.1 := congrArg Prod.fst h2
    have hy : r.year = k.2.2 := congrArg Prod.snd h2
    have ha0 : r0.area_code = k.1 := congrArg Prod.fst hr0k
    have hcc : r.country = r0.country := hc r hr r0 hr0 (by rw [ha, ha0])
    have hc0 : r0.country = k.2.1 := congrArg (fun p => p.2.1) hr0k
    refine Prod.ext_iff.mpr ⟨ha, Prod.ext_iff.mpr ⟨?_, hy⟩⟩
    rw [show (key3 r).2.1 = r.country from rfl, hcc, hc0]

/-- Under country consistency, the country-year table, projected to
`(area_code, year, gep)`, is strictly sorted by `(area_code, year)`:
keys are pairwise distinct and ascending. -/
theorem group_crops_pairwise_strict {l : List AdjRecord} (hc : countryConsistent l) :
    ((group_crops l).map fun c =>
      ((c.area_code, c.year, c.gep) : Int × Int × ℚ)).Pairwise triLt := by
  have hgc : group_crops l = List.insertionSort cyLe
      ((List.insertionSort key3Le ((l.map key3).dedup)).map fun k =>
        CYRow.mk k.1 k.2.1 k.2.2
          (sumOpt ((l.filter fun r => key3 r == k).map (·.gep)))) := rfl
  have hKnd : (List.insertionSort key3Le ((l.map key3).dedup)).Nodup :=
    (List.perm_insertionSort key3Le _).symm.nodup (List.nodup_dedup _)
  have hKmem : ∀ k ∈ List.insertionSort key3Le ((l.map key3).dedup),
      k ∈ l.map key3 := fun k hk =>
    List.mem_dedup.mp ((List.perm_insertionSort key3Le _).mem_iff.mp hk)
  have hKproj : (List.insertionSort key3Le ((l.map key3).dedup)).Pairwise
      fun k k' : Int × String × Int => ¬ (k.1 = k'.1 ∧ k.2.2 = k'.2.2) := by
    refine List.Pairwise.imp_of_mem ?_ hKnd
    intro a b ha hb hne hcon
    obtain ⟨h1, h2⟩ := hcon
    obtain ⟨ra, hra, hka⟩ := List.mem_map.mp (hKmem a ha)
    obtain ⟨rb, hrb, hkb⟩ := List.mem_map.mp (hKmem b hb)
    have h1a : ra.area_code = a.1 := congrArg Prod.fst hka
    have h1b : rb.area_code = b.1 := congrArg Prod.fst hkb
    have hcab : ra.country = rb.country :=
      hc ra hra rb hrb (by rw [h1a, h1b, h1])
    apply hne
    have hca : a.2.1 = ra.country := (congrArg (fun p => p.2.1) hka).symm
    have hcb : b.2.1 = rb.country := (congrArg (fun p => p.2.1) hkb).symm
    refine Prod.ext_iff.mpr ⟨h1, Prod.ext_iff.mpr ⟨?_, h2⟩⟩
    rw [hca, hcb, hcab]
  have hrowsproj : ((List.insertionSort key3Le ((l.map key3).dedup)).map fun k =>
      CYRow.mk k.1 k.2.1 k.2.2
        (sumOpt ((l.filter fun r => key3 r == k).map (·.gep)))).Pairwise
      (fun c d : CYRow => ¬ (c.area_code = d.area_code ∧ c.year = d.year)) := by
    rw [List.pairwise_map]
    exact hKproj
  have hgcproj : (group_crops l).Pairwise
      fun c d : CYRow => ¬ (c.area_code = d.area_code ∧ c.year = d.year) := by
    rw [hgc]
    refine ((List.perm_insertionSort cyLe _).pairwise_iff ?_).mpr hrowsproj
    intro x y h hcon
    exact h ⟨hcon.1.symm, hcon.2.symm⟩
  have hgcsorted : (group_crops l).Pairwise cyLe := by
    rw [hgc]
    exact List.sorted_insertionSort cyLe _
  rw [List.pairwise_map]
  refine (hgcsorted.and hgcproj).imp ?_
  intro c d h
  obtain ⟨hle, hne⟩ := h
  unfold cyLe at hle
  unfold triLt
  simp only at *
  by_cases hac : c.area_code = d.area_code
  · refine Or.inr ⟨hac, ?_⟩
    have : ¬ c.year = d.year := fun hy => hne ⟨hac, hy⟩
    omega
  · omega

/-- The spec-side level-1 grouping is strictly sorted by
`(area_code, year)` as well. -/
theorem spec_sum_pairwise_strict (l : List AdjRecord) :
    (spec_sum_by_area_year l).Pairwise triLt := by
  have hKnd : (List.insertionSort pairLe ((l.map key2).dedup)).Nodup :=
    (List.perm_insertionSort pairLe _).symm.nodup (List.nodup_dedup _)
  have hKsorted : (List.insertionSort pairLe ((l.map key2).dedup)).Pairwise
      pairLe := List.sorted_insertionSort pairLe _
  rw [spec_sum_by_area_year, List.pairwise_map]
  refine (hKsorted.and hKnd).imp ?_
  intro a b h
  obtain ⟨hle, hne⟩ := h
  unfold pairLe at hle
  unfold triLt
  simp only
  have : ¬ (a.1 = b.1 ∧ a.2 = b.2) := fun hcon =>
    hne (Prod.ext_iff.mpr ⟨hcon.1, hcon.2⟩)
  by_cases hac : a.1 = b.1
  · refine Or.inr ⟨hac, ?_⟩
    have : ¬ a.2 = b.2 := fun hy => this ⟨hac, hy⟩
    omega
  · omega

/-- Membership characterisation of the spec-side level-1 grouping. -/
theorem mem_spec_sum {l : List AdjRecord} {x : Int × Int × ℚ} :
    x ∈ spec_sum_by_area_year l ↔ ∃ k ∈ (l.map key2).dedup,
      x = (k.1, k.2, sumOpt ((l.filter fun r => key2 r == k).map (·.gep))) := by
  rw [spec_sum_by_area_year]
  constructor
  · intro h
    obtain ⟨k, hk, hxk⟩ := List.mem_map.mp h
    exact ⟨k, (List.perm_insertionSort pairLe _).mem_iff.mp hk, hxk.symm⟩
  · rintro ⟨k, hk, rfl⟩
    exact List.mem_map_of_mem _ ((List.perm_insertionSort pairLe _).mem_iff.mpr hk)

/-- Under country consistency, the code's country-year grouping and the
spec's `(area_code, year)` grouping produce the same set of
`(area_code, year, gep)` triples. -/
theorem group_crops_spec_perm {l : List AdjRecord} (hc : countryConsistent l) :
    ((group_crops l).map fun c =>
      ((c.area_code, c.year, c.gep) : Int × Int × ℚ)).Perm
      (spec_sum_by_area_year l) := by
  have hA : ((group_crops l).map fun c =>
      ((c.area_code, c.year, c.gep) : Int × Int × ℚ)).Nodup := by
    refine (group_crops_pairwise_strict hc).imp ?_
    intro a b h he
    subst he
    unfold triLt at h
    omega
  have hB : (spec_sum_by_area_year l).Nodup := by
    refine (spec_sum_pairwise_strict l).imp ?_
    intro a b h he
    subst he
    unfold triLt at h
    omega
  rw [List.perm_ext_iff_of_nodup hA hB]
  intro x
  constructor
  · intro hx
    obtain ⟨c, hcmem, hcx⟩ := List.mem_map.mp hx
    obtain ⟨k, hk, hck⟩ := mem_group_crops hcmem
    have hk3 : k ∈ l.map key3 := List.mem_dedup.mp hk
    have hfe := filter_key3_eq_filter_key2 hc hk3
    have hk2 : ((k.1, k.2.2) : Int × Int) ∈ (l.map key2).dedup := by
      rw [List.mem_dedup]
      obtain ⟨r0, hr0, hr0k⟩ := List.mem_map.mp hk3
      refine List.mem_map.mpr ⟨r0, hr0, ?_⟩
      have h1 : r0.area_code = k.1 := congrArg Prod.fst hr0k
      have h2 : r0.year = k.2.2 := congrArg (fun p => p.2.2) hr0k
      exact Prod.ext_iff.mpr ⟨h1, h2⟩
    rw [mem_spec_sum]
    refine ⟨(k.1, k.2.2), hk2, ?_⟩
    rw [← hcx, hck]
    show (k.1, k.2.2, sumOpt ((l.filter fun r => key3 r == k).map (·.gep))) = _
    rw [hfe]
  · intro hx
    rw [mem_spec_sum] at hx
    obtain ⟨k2, hk2, rfl⟩ := hx
    have hk2m : k2 ∈ l.map key2 := List.mem_dedup.mp hk2
    obtain ⟨r0, hr0, hr0k⟩ := List.mem_map.mp hk2m
    have hk3 : key3 r0 ∈ (l.map key3).dedup :=
      List.mem_dedup.mpr (List.mem_map_of_mem _ hr0)
    have hrow := group_crops_mem hk3
    refine List.mem_map.mpr ⟨_, hrow, ?_⟩
    have hfe := filter_key3_eq_filter_key2 hc (List.mem_map_of_mem key3 hr0)
    have hpair : (((key3 r0).1, (key3 r0).2.2) : Int × Int) = k2 := hr0k
    show ((key3 r0).1, (key3 r0).2.2,
        sumOpt ((l.filter fun r => key3 r == key3 r0).map (·.gep))) = _
    rw [hfe, hpair]
    have h1 : (key3 r0).1 = k2.1 := congrArg Prod.fst hpair
    have h2 : (key3 r0).2.2 = k2.2 := congrArg Prod.snd hpair
    rw [h2, h1]

/-- C5: under the invariant that the display country name is a function
of the area code, grouping the crop-level output by `(area_code, year)`
and summing adjusted gep reproduces the country-year table row for row;
grouping the country-year table by year and summing gep reproduces the
global table row for row — both under the implemented missing-skipping
sum. -/
theorem C5_aggregation_consistency (l : List AdjRecord) (hc : countryConsistent l) :
    ((group_crops l).map fun c =>
      ((c.area_code, c.year, c.gep) : Int × Int × ℚ)) = spec_sum_by_area_year l ∧
    ∀ m : List CYRow,
      ((group_countries m).map fun g => ((g.year, g.total_gep) : Int × ℚ))
        = spec_sum_by_year m := by
  constructor
  · exact List.eq_of_perm_of_sorted (group_crops_spec_perm hc)
      (group_crops_pairwise_strict hc) (spec_sum_pairwise_strict l)
  · intro m
    have hK : (List.insertionSort (fun a b : Int => a ≤ b)
        ((m.map (·.year)).dedup)).Pairwise (fun a b : Int => a ≤ b) :=
      List.sorted_insertionSort _ _
    have hgc : group_countries m
        = List.insertionSort (fun a b : GYRow => a.year ≤ b.year)
          ((List.insertionSort (fun a b : Int => a ≤ b)
            ((m.map (·.year)).dedup)).map fun y =>
              GYRow.mk y (((m.filter fun r => r.year == y).map (·.gep)).sum)) := rfl
    have hsorted : ((List.insertionSort (fun a b : Int => a ≤ b)
        ((m.map (·.year)).dedup)).map fun y =>
          GYRow.mk y (((m.filter fun r => r.year == y).map (·.gep)).sum)).Pairwise
        (fun a b : GYRow => a.year ≤ b.year) := by
      rw [List.pairwise_map]
      exact hK
    rw [hgc, List.Sorted.insertionSort_eq hsorted, spec_sum_by_year, List.map_map]
    rfl

/-- C5 witness: the consistency statement applied at the concrete merged
frame of the as-of example. -/
theorem C5_aggregation_consistency_witness :
    ((group_crops mergedW).map fun c =>
      ((c.area_code, c.year, c.gep) : Int × Int × ℚ))
      = spec_sum_by_area_year mergedW ∧
    ((group_countries (group_crops mergedW)).map fun g =>
      ((g.year, g.total_gep) : Int × ℚ)) = spec_sum_by_year (group_crops mergedW) :=
  ⟨(C5_aggregation_consistency mergedW (by decide)).1,
   (C5_aggregation_consistency mergedW (by decide)).2 (group_crops mergedW)⟩
